import Mathlib

/-!
Verification of typhonjs-config-resolver (src/ConfigResolver.js) against its
natural-language specification.

The JavaScript code is shallowly embedded: JS values become the inductive
`JVal` tree, the recursive extends-resolution is fueled (the fuel is an
artifact of the embedding; JS recursion is unbounded), and the one in-place
mutation performed by `_deepMerge` (the upgrade-merge promotion
`src[srcKey] = [src[srcKey]]`, line 186) is made observable by returning the
post-call state of the `src` operand alongside the merge result.

External collaborators (Node's `path` module, the file/module loader, the
`typhonjs-object-util` validator and `safeSetAll`) are not part of src/ and
are modelled from the spec where noted.
-/

namespace ConfigResolver

/-- JavaScript runtime values, as trees.  Reference identity and aliasing are
not modelled: two structurally equal objects are distinct heap objects in JS,
which only matters for `===` on objects (see `jsStrictEq`). -/
inductive JVal where
  | vUndef : JVal
  | vNull : JVal
  | vBool (b : Bool) : JVal
  | vNum (n : Int) : JVal
  | vStr (s : String) : JVal
  | vArr (xs : List JVal) : JVal
  | vObj (kvs : List (String × JVal)) : JVal
deriving Repr

open JVal

def isArrB : JVal → Bool
  | vArr _ => true
  | _ => false

def isUndefB : JVal → Bool
  | vUndef => true
  | _ => false

def isNullB : JVal → Bool
  | vNull => true
  | _ => false

/-- Test for `typeof v === "object"` (true for objects, arrays and `null`). -/
def typeofObjB : JVal → Bool
  | vObj _ => true
  | vArr _ => true
  | vNull => true
  | _ => false

/-- JS `typeof`. -/
def jsTypeof : JVal → String
  | vUndef => "undefined"
  | vNull => "object"
  | vBool _ => "boolean"
  | vNum _ => "number"
  | vStr _ => "string"
  | vArr _ => "object"
  | vObj _ => "object"

/-- JS truthiness (the `Int` model has no NaN). -/
def truthy : JVal → Bool
  | vUndef => false
  | vNull => false
  | vBool b => b
  | vNum n => decide (n ≠ 0)
  | vStr s => decide (s ≠ "")
  | vArr _ => true
  | vObj _ => true

def scalarEqB : JVal → JVal → Bool
  | vUndef, vUndef => true
  | vNull, vNull => true
  | vBool a, vBool b => decide (a = b)
  | vNum a, vNum b => decide (a = b)
  | vStr a, vStr b => decide (a = b)
  | _, _ => false

def isRefTypeB : JVal → Bool
  | vObj _ => true
  | vArr _ => true
  | _ => false

/-- JS `===`.  On primitives this is value equality; two object/array nodes of
this tree model are distinct heap objects, so `===` is false for them (the
source only ever compares primitives here: `indexOf` in the combine branch is
reached only for non-object elements, and plugin `name` attributes are
primitives in every configuration this development considers). -/
def jsStrictEq (a b : JVal) : Bool :=
  if isRefTypeB a || isRefTypeB b then false else scalarEqB a b

/-- First-match association lookup; JS objects cannot carry duplicate keys. -/
def lookupKvs : List (String × JVal) → String → JVal
  | [], _ => vUndef
  | (k', v') :: rest, k => if k' = k then v' else lookupKvs rest k

/-- Assignment `obj[k] = v`: update in place (keeping key order) or append. -/
def setKvs : List (String × JVal) → String → JVal → List (String × JVal)
  | [], k, v => [(k, v)]
  | (k', v') :: rest, k, v =>
    if k' = k then (k, v) :: rest else (k', v') :: setKvs rest k v

/-- Deletion `delete obj[k]`. -/
def removeKvs : List (String × JVal) → String → List (String × JVal)
  | [], _ => []
  | (k', v') :: rest, k =>
    if k' = k then removeKvs rest k else (k', v') :: removeKvs rest k

/-- Property read `v[k]`; non-objects have no modelled string properties. -/
def getProp (v : JVal) (k : String) : JVal :=
  match v with
  | vObj kvs => lookupKvs kvs k
  | _ => vUndef

/-- Property read that raises the JS `TypeError` on `null`/`undefined`. -/
def getPropE (v : JVal) (k : String) : Except String JVal :=
  match v with
  | vNull => .error ("TypeError: Cannot read properties of null (reading '" ++ k ++ "')")
  | vUndef => .error ("TypeError: Cannot read properties of undefined (reading '" ++ k ++ "')")
  | _ => .ok (getProp v k)

def objSet (o : JVal) (k : String) (v : JVal) : JVal :=
  match o with
  | vObj kvs => vObj (setKvs kvs k v)
  | x => x

def objDelete (o : JVal) (k : String) : JVal :=
  match o with
  | vObj kvs => vObj (removeKvs kvs k)
  | x => x

/-- Array element read; holes and out-of-range reads are `undefined`. -/
def lGet (xs : List JVal) (i : Nat) : JVal := xs.getD i vUndef

/-- Assignment `arr[i] = v`; assigning past the end pads with holes
(`undefined`). -/
def lSet (xs : List JVal) (i : Nat) (v : JVal) : List JVal :=
  if i < xs.length then xs.set i v
  else xs ++ List.replicate (i - xs.length) vUndef ++ [v]

def natKey (n : Nat) : String := toString n

/-- Numeric index read `t[i]` on the post-`target || []` value: arrays index
elements, strings index characters, objects look up the stringified index. -/
def jsIndex (t : JVal) (i : Nat) : JVal :=
  match t with
  | vArr xs => lGet xs i
  | vStr s =>
    match s.data.drop i with
    | c :: _ => vStr (String.mk [c])
    | [] => vUndef
  | vObj kvs => lookupKvs kvs (natKey i)
  | _ => vUndef

/-- Membership test `dst.indexOf(el) !== -1` with `===` semantics. -/
def jsIndexOf (l : List JVal) (v : JVal) : Bool := l.any (fun x => jsStrictEq x v)

end ConfigResolver

namespace ConfigResolver

/-! ### Node `path` model (external collaborator, modelled from the spec:
POSIX paths; `path.join` concatenates with `/` and normalizes a leading
`./` of the second component). -/

def pathIsAbsolute (s : String) : Bool :=
  match s.data with
  | '/' :: _ => true
  | _ => false

def stripDotSlash (s : String) : String :=
  match s.data with
  | '.' :: '/' :: rest => String.mk rest
  | _ => s

def pathJoin (a b : String) : String :=
  let b' := stripDotSlash b
  match a.data.getLast? with
  | some '/' => String.mk (a.data ++ b'.data)
  | _ => String.mk (a.data ++ '/' :: b'.data)

def pathDirname (s : String) : String :=
  match s.data.reverse.dropWhile (fun c => !(c = '/')) with
  | [] => "."
  | ['/'] => "/"
  | _ :: rest => String.mk rest.reverse

def pathResolve (base f : String) : String :=
  if pathIsAbsolute f then f else pathJoin base f

/-- JS `\w` on an ASCII character: alphanumeric or underscore. -/
def isWordChar (c : Char) : Bool := c.isAlphanum || c = '_'

/-- Classification predicate `_isFilePath` (ConfigResolver.js line 236):
`path.isAbsolute(filePath) || !(/\w|@/.test(filePath.charAt(0)))`. -/
def isFilePath (s : String) : Bool :=
  pathIsAbsolute s ||
    !(match s.data.head? with
      | some c => isWordChar c || c = '@'
      | none => false)

end ConfigResolver

namespace ConfigResolver

open JVal

/-! ### `_deepMerge` (ConfigResolver.js lines 91-206)

`deepMerge` returns `(dst, targetAfter, srcAfter)`: the merge result together
with the post-call states of both operands.  Every assignment statement of
the source writes either into the fresh `dst` (`dst = []`, `dst = {}` at line
95) or into `src` (`src[srcKey] = [src[srcKey]]`, line 186); no statement
assigns into `target` (line 101 merely rebinds the local variable).  The
`targetAfter` channel therefore carries only the target states returned by
the recursive calls, folded back through the numeric-index or key alias
under which the sub-target was obtained (`jsIndexSet`, `objSetExisting`);
sub-targets that are fresh values rather than aliases (`target[k] || {}`
with falsy `target[k]`, string characters, out-of-range reads) are not
folded, matching the JS heap.  Reads of `target` use its entry value, which
coincides with the current state because no assignment into `target` exists
anywhere in the function — the fact the target-channel theorem proves. -/

/-- The plugin special case (lines 119-137): append target plugins whose name
is absent, then move each source plugin to the head, replacing any entry of
the same name. -/
def pluginPhase (tl srcL dst0 : List JVal) : List JVal :=
  let d1 := tl.foldl
    (fun d p =>
      match d.find? (fun q => jsStrictEq (getProp q "name") (getProp p "name")) with
      | some found => if truthy found then d else d ++ [p]
      | none => d ++ [p])
    dst0
  srcL.foldl
    (fun d p =>
      let d' := match d.findIdx? (fun q => jsStrictEq (getProp q "name") (getProp p "name")) with
        | some i => d.eraseIdx i
        | none => d
      p :: d')
    d1

/-- Update of an association entry only when the key already exists (a write
through an alias can only hit an entry that is present). -/
def setExistingKvs : List (String × JVal) → String → JVal → List (String × JVal)
  | [], _, _ => []
  | (k', v') :: rest, k, v =>
    if k' = k then (k, v) :: rest else (k', v') :: setExistingKvs rest k v

/-- Fold a sub-call's target state back through a key alias: only an existing
entry of an object reflects the write; other values are untouched. -/
def objSetExisting (o : JVal) (k : String) (v : JVal) : JVal :=
  match o with
  | vObj kvs => vObj (setExistingKvs kvs k v)
  | x => x

/-- Fold a sub-call's target state back through the numeric-index alias
`t[i]`: an in-range array element or an existing numeric object key reflects
the write; strings and out-of-range reads produced fresh values. -/
def jsIndexSet (t : JVal) (i : Nat) (v : JVal) : JVal :=
  match t with
  | vArr xs => vArr (if i < xs.length then xs.set i v else xs)
  | vObj kvs => vObj (setExistingKvs kvs (natKey i) v)
  | x => x

/-- One iteration of the sequence-merge element loop (lines 140-168).  `dm`
is the one-level-deeper `_deepMerge`; `t` is the post-`target || []` value
and `tAcc` its running post-call state.  Returns the updated `dst`, the
updated target state and the post-call state of the element. -/
def arrStep (dm : JVal → JVal → Bool → Option String → JVal × JVal × JVal)
    (t : JVal) (combine : Bool) (pk : Option String) (i : Nat)
    (dst : List JVal) (tAcc : JVal) (el : JVal) :
    List JVal × JVal × JVal :=
  if isUndefB (lGet dst i) then (lSet dst i el, tAcc, el)
  else if typeofObjB el then
    if pk = some "plugins" then (dst, tAcc, el)
    else
      let r := dm (jsIndex t i) el combine pk
      (lSet dst i r.1, jsIndexSet tAcc i r.2.1, r.2.2)
  else if combine then
    if jsIndexOf dst el then (dst, tAcc, el) else (dst ++ [el], tAcc, el)
  else (lSet dst i el, tAcc, el)

/-- The per-index element loop of the sequence merge (lines 140-169),
threading the target state and returning the post-call state of the iterated
elements. -/
def arrLoop (dm : JVal → JVal → Bool → Option String → JVal × JVal × JVal)
    (t : JVal) (combine : Bool) (pk : Option String) :
    Nat → List JVal → JVal → List JVal → List JVal × JVal × List JVal
  | _, dst, tAcc, [] => (dst, tAcc, [])
  | i, dst, tAcc, el :: rest =>
    let st := arrStep dm t combine pk i dst tAcc el
    let rest' := arrLoop dm t combine pk (i + 1) st.1 st.2.1 rest
    (rest'.1, rest'.2.1, st.2.2 :: rest'.2.2)

/-- One iteration of the mapping-merge key loop (lines 181-201): the line-186
in-place promotion of an upgrade-merge key, then the four-way dispatch, with
the sub-call's target state folded back when the sub-target was an alias
into `target` (the `target[srcKey] || {}` fallback is a fresh object,
so it is folded only when `target[srcKey]` is truthy). -/
def objStep (dm : JVal → JVal → Bool → Option String → JVal × JVal × JVal)
    (uml : List String) (target : JVal) (combine : Bool)
    (dst : List (String × JVal)) (tAcc : JVal) (k : String) (v0 : JVal) :
    List (String × JVal) × JVal × JVal :=
  let v := if k ∈ uml ∧ isArrB v0 = false then vArr [v0] else v0
  let tv := getProp target k
  if isArrB v || isArrB tv then
    let r := dm tv v (decide (k ∈ uml)) (some k)
    (setKvs dst k r.1, objSetExisting tAcc k r.2.1, r.2.2)
  else if !(jsTypeof v = "object") then (setKvs dst k v, tAcc, v)
  else if isNullB v then (setKvs dst k v, tAcc, v)
  else
    let r := dm (if truthy tv then tv else vObj []) v combine (some k)
    (setKvs dst k r.1,
      if truthy tv then objSetExisting tAcc k r.2.1 else tAcc, r.2.2)

/-- The per-key loop of the mapping merge (lines 181-202).  Returns the
updated `dst` entries, the target state and the post-call state of `src`'s
entries (recording the line-186 promotion and mutations made by recursive
calls). -/
def objLoop (dm : JVal → JVal → Bool → Option String → JVal × JVal × JVal)
    (uml : List String) (target : JVal) (combine : Bool) :
    List (String × JVal) → JVal → List (String × JVal) →
    List (String × JVal) × JVal × List (String × JVal)
  | dst, tAcc, [] => (dst, tAcc, [])
  | dst, tAcc, (k, v0) :: rest =>
    let st := objStep dm uml target combine dst tAcc k v0
    let rest' := objLoop dm uml target combine st.1 st.2.1 rest
    (rest'.1, rest'.2.1, (k, st.2.2) :: rest'.2.2)

/-- The body of `_deepMerge` with the nested recursive call abstracted as
`dm`. -/
def deepMergeBody (dm : JVal → JVal → Bool → Option String → JVal × JVal × JVal)
    (uml : List String) (target src : JVal) (combine : Bool)
    (pk : Option String) : JVal × JVal × JVal :=
  if isArrB src || isArrB target then
      -- line 101: target = target || [] (a falsy target is replaced by a
      -- fresh array, so its mutations cannot reach the original operand)
      let tNorm : JVal := if truthy target then target else vArr []
      -- lines 104-111: seed from src only when it is an array of length > 1
      let tConcat : List JVal := match tNorm with
        | vArr xs => xs
        | tv => [tv]
      let seed : List JVal := match src with
        | vArr xs => if xs.length > 1 then xs else tConcat
        | _ => tConcat
      -- lines 113-116 wrap a primitive src; Object.keys-driven iteration
      let srcIter : List JVal := match src with
        | vArr xs => xs
        | vObj kvs => (List.range kvs.length).map (fun i => lookupKvs kvs (natKey i))
        | vNull => []   -- Object.keys(null) throws in JS; unreachable here
        | s => [s]
      let dst0 : List JVal :=
        if pk = some "plugins" ∧ isArrB tNorm = true then
          pluginPhase (match tNorm with | vArr xs => xs | _ => []) srcIter seed
        else seed
      let r := arrLoop dm tNorm combine pk 0 dst0 tNorm srcIter
      (vArr r.1, (if truthy target then r.2.1 else target),
        match src with | vArr _ => vArr r.2.2 | s => s)
    else
      let dst0 : List (String × JVal) := match target with
        | vObj kvs => kvs
        | _ => []
      let srcKvs : List (String × JVal) := match src with
        | vObj kvs => kvs
        | _ => []
      let r := objLoop dm uml target combine dst0 target srcKvs
      (vObj r.1, r.2.1, match src with | vObj _ => vObj r.2.2 | s => s)

/-- Fueled `_deepMerge(target, src, combine, parentKey)`.  Out of fuel the
function gives up (`vUndef`) without touching either operand; every theorem
either supplies enough fuel or holds for all fuels. -/
def deepMerge (uml : List String) (fuel : Nat) (target src : JVal)
    (combine : Bool) (pk : Option String) : JVal × JVal × JVal :=
  match fuel with
  | 0 => (vUndef, target, src)
  | fuel + 1 => deepMergeBody (deepMerge uml fuel) uml target src combine pk

end ConfigResolver

namespace ConfigResolver

open JVal

/-! ### `_applyExtends` / `_load` (ConfigResolver.js lines 43-73 and 252-294)

The shared, mutated `loadedConfigs` array is threaded explicitly, and is also
carried on the error path (in JS the caller's array retains the pushed
entries when an exception propagates).  The Loader collaborator
`L : String → Except String JVal` abstracts `require` / `readFileSync` +
JSON-with-comments parsing; the validator `V` abstracts the bound
`preValidate` (a no-op for the empty rule sets used throughout). -/

/-- Result of a chain walk: merged config plus the loaded chain, or an error
message plus the loaded chain at the time of the error. -/
abbrev ExtRes := Except (String × List String) (JVal × List String)

/-- Normalization of `config.extends` into an array (lines 45-48). -/
def extRefs (config : JVal) : List JVal :=
  match getProp config "extends" with
  | vArr xs => xs
  | v => [v]

/-- Path adjustment of one reference (lines 53-59). -/
def resolveRefPath (s filePath : String) (rt : Option String) : String :=
  if isFilePath s then
    if pathIsAbsolute s then s
    else pathJoin (rt.getD (pathDirname filePath)) s
  else s

/-- Loading step `_load` (lines 252-294) with its recursive `_applyExtends`
call passed in
as `rec`; `filePath` is the (already adjusted) reference identifier. -/
def loadWith (rec : JVal → String → Option String → List String → ExtRes)
    (L : String → Except String JVal) (V : JVal → Except String Unit)
    (filePath : String) (relativeTo : Option String) (loaded : List String) :
    ExtRes :=
  let fetched : Except String JVal × Option String :=
    if isFilePath filePath then
      let resolvedPath := pathResolve (relativeTo.getD "") filePath
      (L resolvedPath, some (pathDirname resolvedPath))
    else (L filePath, none)
  match fetched.1 with
  | .error e => .error (e, loaded)
  | .ok config =>
    match V config with
    | .error e => .error (e, loaded)
    | .ok _ =>
      if truthy config && truthy (getProp config "extends") then
        rec config filePath fetched.2 loaded
      else .ok (config, loaded)

/-- The body of the `reduceRight` (lines 51-70): references are processed
right to left, so the list passed here is `(extRefs config).reverse`; `acc`
starts as the original `config` and is the `src` (override) operand of each
merge. -/
def goRefs (loadFn : String → List String → ExtRes)
    (mergeFn : JVal → JVal → JVal) (filePath : String) (rt : Option String) :
    List JVal → JVal → List String → ExtRes
  | [], acc, loaded => .ok (acc, loaded)
  | ref :: rest, acc, loaded =>
    match ref with
    | vStr s =>
      let p := resolveRefPath s filePath rt
      -- line 62: early out for already-loaded paths (cycle guard)
      if p ∈ loaded then goRefs loadFn mergeFn filePath rt rest acc loaded
      else
        match loadFn p (loaded ++ [p]) with
        | .error e => .error e
        | .ok (parentCfg, loaded') =>
          goRefs loadFn mergeFn filePath rt rest (mergeFn parentCfg acc) loaded'
    | _ => .error ("TypeError: extends reference is not a string", loaded)

/-- Chain walk `_applyExtends(config, filePath, relativeTo, validate,
loadedConfigs)`. -/
def applyExtends (L : String → Except String JVal)
    (V : JVal → Except String Unit) (uml : List String) (fuel : Nat)
    (config : JVal) (filePath : String) (rt : Option String)
    (loaded : List String) : ExtRes :=
  match fuel with
  | 0 => .error ("ConfigResolver: recursion limit", loaded)
  | fuel + 1 =>
    goRefs (fun p l => loadWith (applyExtends L V uml fuel) L V p rt l)
      (fun t s => (deepMerge uml fuel t s false none).1)
      filePath rt (extRefs config).reverse config loaded

/-- Array join `loadedConfigs.join('\n')` (Array.prototype.join). -/
def joinNl : List String → String
  | [] => ""
  | [x] => x
  | x :: y :: t => x ++ "\n" ++ joinNl (y :: t)

/-- Copy via `JSON.parse(JSON.stringify(v))`: a structural copy that drops
undefined-valued mapping entries and turns undefined sequence elements into
null. -/
def jsonRT (fuel : Nat) (v : JVal) : JVal :=
  match fuel with
  | 0 => v
  | fuel + 1 =>
    match v with
    | vObj kvs =>
      vObj (kvs.foldr
        (fun kv acc => if isUndefB kv.2 then acc else (kv.1, jsonRT fuel kv.2) :: acc) [])
    | vArr xs => vArr (xs.map (fun x => if isUndefB x then vNull else jsonRT fuel x))
    | x => x

/-- Extension resolution `_resolveExtends` (lines 383-417); `cwd` models
`process.cwd()`. -/
def resolveExtends (L : String → Except String JVal)
    (V : JVal → Except String Unit) (uml : List String) (fuel : Nat)
    (config : JVal) (cwd : String) : Except String JVal :=
  match getPropE config "extends" with
  | .error e => .error e
  | .ok ext =>
    if truthy ext then
      match applyExtends L V uml fuel config cwd (some cwd) [] with
      | .error (e, lf) =>
        -- lines 397-403: augment the error with the loaded chain
        .error (e ++ "\nReferenced from: \n" ++ joinNl lf)
      | .ok (rc, lf) =>
        -- lines 405-411: record the loaded chain under `extends`
        let rc := if 0 < lf.length then
            objSet (objDelete rc "extends") "extends" (vArr (lf.map vStr))
          else rc
        -- lines 413-414: reverse the plugins array in place
        let rc := match getProp rc "plugins" with
          | vArr ps => objSet rc "plugins" (vArr ps.reverse)
          | _ => rc
        .ok rc
    else .ok (jsonRT fuel config)

/-- Defaults application `setDefaultValues` (line 426).  Modelled from the spec:
`ObjectUtil.safeSetAll` (external collaborator) in `set-undefined` mode sets
every default-value key that is absent or undefined in the result and never
overwrites an existing value, falsy ones included. -/
def setDefaultValues (dv cfg : JVal) : JVal :=
  match dv with
  | vObj ds =>
    ds.foldl (fun c kv => if isUndefB (getProp c kv.1) then objSet c kv.1 kv.2 else c) cfg
  | _ => cfg

/-- Entry point `resolve(config)` (lines 360-373).  `V` and `W` model the pre and post
validator collaborators (no-ops for the empty rule sets used throughout),
`dv` the configured default values, `uml` the upgrade-merge key list. -/
def resolve (L : String → Except String JVal)
    (V W : JVal → Except String Unit) (dv : JVal) (uml : List String)
    (fuel : Nat) (config : JVal) (cwd : String) : Except String JVal :=
  if !(jsTypeof config = "object") then .error "'config' is not an 'object'."
  else
    match V config with
    | .error e => .error e
    | .ok _ =>
      match resolveExtends L V uml fuel config cwd with
      | .error e => .error e
      | .ok rc =>
        let rc := setDefaultValues dv rc
        match W rc with
        | .error e => .error e
        | .ok _ => .ok rc

/-- The resolver-data bundle held on the instance (`_defaultValues`,
`_preValidate`, `_postValidate`, `_upgradeMergeList`). -/
structure ResolverState where
  defaultValues : JVal
  preValidate : JVal
  postValidate : JVal
  upgradeMergeList : JVal

/-- Resolver-data setter `setResolverData` (lines 434-464): destructure with
empty defaults, run
the four type guards, then assign the four fields.  Returns the post-call
instance state and the raised `TypeError` message, if any. -/
def setResolverData (st : ResolverState) (arg : JVal) :
    ResolverState × Option String :=
  match arg with
  | vNull => (st, some "TypeError: Cannot destructure parameter as it is null.")
  | _ =>
    let pick (k : String) (d : JVal) : JVal :=
      let raw := getProp arg k
      if isUndefB raw then d else raw
    let dv := pick "defaultValues" (vObj [])
    let pv := pick "preValidate" (vObj [])
    let po := pick "postValidate" (vObj [])
    let um := pick "upgradeMergeList" (vArr [])
    if !(jsTypeof dv = "object") then (st, some "'defaultValues' is not an 'object'.")
    else if !(jsTypeof pv = "object") then (st, some "'preValidate' is not an 'object'.")
    else if !(jsTypeof po = "object") then (st, some "'postValidate' is not an 'object'.")
    else if !(isArrB um) then (st, some "'upgradeMergeList' is not an 'array'.")
    else (⟨dv, pv, po, um⟩, none)

end ConfigResolver

namespace ConfigResolver

open JVal

/-! ### Observation helpers and concrete scenarios used by the theorems -/

/-- The payload of a successful resolution. -/
def okOf : Except String JVal → JVal
  | .ok v => v
  | .error _ => vUndef

/-- The elements of a sequence value. -/
def asList : JVal → List JVal
  | vArr xs => xs
  | _ => []

/-- The loaded-chain record carried by a chain-walk result (on either path:
in JS the caller's shared array retains its entries when an error unwinds). -/
def chainOf : ExtRes → List String
  | .ok (_, l) => l
  | .error (_, l) => l

/-- Containment: `small` occurs contiguously inside `big`. -/
def strContains (big small : String) : Prop := small.data <:+: big.data

/-- A validator that accepts everything: the behaviour of the bound
`preValidate` and `postValidate` for the empty rule sets used here. -/
def noopV : JVal → Except String Unit := fun _ => .ok ()

/-- Loader for the two-parent scenario: modules A and B with a shared key
`p`, a key `q` only in A and B, and a key `r` only in B. -/
def ldAB (ap aq bp bq br : Int) : String → Except String JVal := fun s =>
  if s = "A" then .ok (vObj [("p", vNum ap), ("q", vNum aq)])
  else if s = "B" then .ok (vObj [("p", vNum bp), ("q", vNum bq), ("r", vNum br)])
  else .error ("Cannot find module '" ++ s ++ "'")

/-- Child config declaring `extends: [A, B]` and its own value for `p`. -/
def childAB (cp : Int) : JVal :=
  vObj [("extends", vArr [vStr "A", vStr "B"]), ("p", vNum cp)]

/-- C1 — the precedence law, as the code implements it.  The `reduceRight`
of `_applyExtends` (lines 50-70) resolves the rightmost reference first and
keeps the accumulator as the override operand of every subsequent merge, so
for `child extends [A, B]`: a key in all three resolves to the child's value,
a key only in A and B resolves to B's value (the rightmost sibling takes
highest precedence among siblings, matching the source comment at line 50),
and a key only in B resolves to B's value. -/
theorem extends_sibling_precedence (cp ap aq bp bq br : Int) :
    resolve (ldAB ap aq bp bq br) noopV noopV (vObj []) [] 10 (childAB cp) "/cwd"
      = .ok (vObj [("p", vNum cp), ("q", vNum bq), ("r", vNum br),
          ("extends", vArr [vStr "B", vStr "A"])]) := rfl

/-- C1 — counterexample to the claim as stated: with A.q = 5 and B.q = 6 the
resolved `q` is 6 (B's value), not 5 (A's value), refuting "the leftmost
sibling reference takes highest precedence among siblings". -/
theorem extends_sibling_precedence_cex :
    ¬ (getProp (okOf (resolve (ldAB 1 5 2 6 7) noopV noopV (vObj []) [] 10
        (childAB 10) "/cwd")) "q" = vNum 5) := by
  intro h
  have h6 : getProp (okOf (resolve (ldAB 1 5 2 6 7) noopV noopV (vObj []) [] 10
      (childAB 10) "/cwd")) "q" = vNum 6 := rfl
  rw [h6] at h
  injection h with hn
  exact absurd hn (by decide)

/-- Loader for the plugin scenario: module `parent` with plugins y and x. -/
def ldPlug : String → Except String JVal := fun s =>
  if s = "parent" then
    .ok (vObj [("plugins",
      vArr [vObj [("name", vStr "y")], vObj [("name", vStr "x"), ("opt", vNum 1)]])])
  else .error ("Cannot find module '" ++ s ++ "'")

/-- Child config with plugin x, extending `parent`. -/
def childPlug : JVal :=
  vObj [("extends", vStr "parent"), ("plugins", vArr [vObj [("name", vStr "x")]])]

/-- C3 — plugin reordering: with child.plugins = [\x7bname:'x'\x7d] and
parent.plugins = [\x7bname:'y'\x7d, \x7bname:'x', opt:1\x7d], resolve yields
plugins = [\x7bname:'y'\x7d, \x7bname:'x'\x7d]: the child's x entry (without
`opt`) replaces the parent's, and after the final reversal (line 414) the
un-overridden parent entry y comes first. -/
theorem plugin_reordering :
    getProp (okOf (resolve ldPlug noopV noopV (vObj []) [] 10 childPlug "/cwd"))
        "plugins"
      = vArr [vObj [("name", vStr "y")], vObj [("name", vStr "x")]] := rfl

/-- Loader for the end-to-end default-values scenario: the file
`/cwd/base.json` holds `\x7b a: 1 \x7d`. -/
def ldBase : String → Except String JVal := fun s =>
  if s = "/cwd/base.json" then .ok (vObj [("a", vNum 1)])
  else .error ("ENOENT: no such file or directory, open '" ++ s ++ "'")

/-- C5 — the end-to-end scenario as the code runs it: with defaults
`\x7bb: 2\x7d` and cwd `/cwd`, resolving `\x7bextends: './base.json'\x7d`
yields a = 1, b = 2, and `extends` set to the loaded chain — which records
the reference joined against the cwd (`/cwd/base.json`, lines 53-59 and
405-411), not the original relative string. -/
theorem resolve_default_values_extends_chain :
    resolve ldBase noopV noopV (vObj [("b", vNum 2)]) [] 10
        (vObj [("extends", vStr "./base.json")]) "/cwd"
      = .ok (vObj [("a", vNum 1),
          ("extends", vArr [vStr "/cwd/base.json"]), ("b", vNum 2)]) := rfl

/-- C5 — counterexample to the claim as stated: the output's `extends` is
not `['./base.json']` (it is `['/cwd/base.json']`). -/
theorem resolve_default_values_extends_chain_cex :
    ¬ (getProp (okOf (resolve ldBase noopV noopV (vObj [("b", vNum 2)]) [] 10
        (vObj [("extends", vStr "./base.json")]) "/cwd")) "extends"
      = vArr [vStr "./base.json"]) := by
  intro h
  have hv : getProp (okOf (resolve ldBase noopV noopV (vObj [("b", vNum 2)]) [] 10
      (vObj [("extends", vStr "./base.json")]) "/cwd")) "extends"
      = vArr [vStr "/cwd/base.json"] := rfl
  rw [hv] at h
  injection h with h1
  injection h1 with h2 h3
  injection h2 with h4
  exact absurd h4 (by decide)

/-- C9 — the non-object guard of `resolve` (line 362) checks `typeof` only:
`null` and arrays pass the guard (their `typeof` is `"object"`); an array
resolves normally, while `null` fails later with the property-access
`TypeError` raised when `_resolveExtends` reads `config.extends` (line 385)
— a different error than the guard's. -/
theorem resolve_guard_typeof_only :
    resolve (ldAB 1 5 2 6 7) noopV noopV (vObj []) [] 5 vNull "/cwd"
        = .error "TypeError: Cannot read properties of null (reading 'extends')"
    ∧ resolve (ldAB 1 5 2 6 7) noopV noopV (vObj []) [] 5 (vArr []) "/cwd"
        = .ok (vArr [])
    ∧ resolve (ldAB 1 5 2 6 7) noopV noopV (vObj []) [] 5 (vStr "x") "/cwd"
        = .error "'config' is not an 'object'."
    ∧ "TypeError: Cannot read properties of null (reading 'extends')"
        ≠ "'config' is not an 'object'." :=
  ⟨rfl, rfl, rfl, by decide⟩

end ConfigResolver

namespace ConfigResolver

open JVal

/-! ### C6 — reference classification -/

/-- The classification rule exactly as the spec words it: absolute, or first
character neither alphanumeric nor `@`. -/
def specIsFilePathClaim (s : String) : Bool :=
  pathIsAbsolute s ||
    (match s.data.head? with
     | some c => !(c.isAlphanum) && !(c = '@')
     | none => true)

/-- The classification rule with "alphanumeric" amended to "word character"
(alphanumeric or underscore), matching the regex `/\w|@/` of the source. -/
def specIsFilePathAmended (s : String) : Bool :=
  pathIsAbsolute s ||
    (match s.data.head? with
     | some c => !(isWordChar c) && !(c = '@')
     | none => true)

/-- C6 — the classification operation agrees everywhere with the amended
rule: a reference is a file path exactly when it is absolute or its first
character is not a word character (alphanumeric or underscore) and not `@`;
all other references are module references left for the Loader. -/
theorem isFilePath_classification (s : String) :
    isFilePath s = specIsFilePathAmended s := by
  unfold isFilePath specIsFilePathAmended
  cases h : s.data.head? with
  | none => simp
  | some c => simp [Bool.not_or]

/-- C6 — counterexample to the claim as stated: `"_x"` starts with a
character that is neither alphanumeric nor `@`, so the claim classifies it
as a file path, but the source regex `/\w|@/` matches the underscore and
the code treats it as a module reference. -/
theorem isFilePath_classification_cex :
    isFilePath "_x" = false ∧ specIsFilePathClaim "_x" = true := by
  exact ⟨by decide, by decide⟩

/-! ### C10 — setResolverData validates before assigning -/

set_option maxHeartbeats 2000000 in
/-- C10 — `setResolverData` (lines 434-464) runs all four type guards before
assigning any instance field, so whenever it reports a `TypeError` the
previously-set resolver data is unchanged. -/
theorem setResolverData_guard_preserves_state (st : ResolverState) (arg : JVal)
    (m : String) (h : (setResolverData st arg).2 = some m) :
    (setResolverData st arg).1 = st := by
  cases arg
  case vNull => rfl
  all_goals (
    unfold setResolverData at h ⊢
    dsimp only at h ⊢
    split_ifs at h ⊢ <;> rfl)

/-- C10 — witness: a concrete prior state survives a rejected update whose
`defaultValues` is a number. -/
theorem setResolverData_guard_preserves_state_w :
    (setResolverData ⟨vObj [("z", vNum 9)], vObj [], vObj [], vArr []⟩
        (vObj [("defaultValues", vNum 5)])).2
      = some "'defaultValues' is not an 'object'."
    ∧ (setResolverData ⟨vObj [("z", vNum 9)], vObj [], vObj [], vArr []⟩
        (vObj [("defaultValues", vNum 5)])).1
      = ⟨vObj [("z", vNum 9)], vObj [], vObj [], vArr []⟩ :=
  ⟨rfl, setResolverData_guard_preserves_state _ _
    "'defaultValues' is not an 'object'." rfl⟩

end ConfigResolver

namespace ConfigResolver

open JVal

/-! ### C2 — mutation behaviour of the deep merge -/

/-- Fueled check that no key anywhere inside a value is named in the
upgrade-merge list while holding a non-sequence value — the condition under
which the line-186 promotion can never fire during a merge taking the value
as its `src` operand.  The fuel is an embedding artifact; any fuel larger
than the value's depth gives the intended answer. -/
def promoFree (uml : List String) : Nat → JVal → Bool
  | 0, _ => false
  | fuel + 1, vObj kvs =>
    kvs.all (fun kv =>
      (decide (¬ kv.1 ∈ uml) || isArrB kv.2) && promoFree uml fuel kv.2)
  | fuel + 1, vArr xs => xs.all (promoFree uml fuel)
  | _ + 1, _ => true

theorem promoFree_arr_elems {uml : List String} {pf : Nat} {xs : List JVal}
    (h : promoFree uml (pf + 1) (vArr xs) = true) :
    ∀ el ∈ xs, promoFree uml pf el = true :=
  fun el hm => List.all_eq_true.mp h el hm

theorem promoFree_obj_entries {uml : List String} {pf : Nat}
    {kvs : List (String × JVal)}
    (h : promoFree uml (pf + 1) (vObj kvs) = true) :
    ∀ kv ∈ kvs,
      (¬ kv.1 ∈ uml ∨ isArrB kv.2 = true) ∧ promoFree uml pf kv.2 = true := by
  intro kv hm
  have h2 := List.all_eq_true.mp h kv hm
  rw [Bool.and_eq_true, Bool.or_eq_true, decide_eq_true_eq] at h2
  exact ⟨h2.1, h2.2⟩

theorem setExistingKvs_self (kvs : List (String × JVal)) (k : String) :
    setExistingKvs kvs k (lookupKvs kvs k) = kvs := by
  induction kvs with
  | nil => rfl
  | cons kv rest ih =>
    cases kv with
    | mk k' v' =>
      by_cases hk : k' = k
      · subst hk
        simp [setExistingKvs, lookupKvs]
      · simp [setExistingKvs, lookupKvs, hk, ih]

theorem objSetExisting_self (o : JVal) (k : String) :
    objSetExisting o k (getProp o k) = o := by
  cases o <;> simp [objSetExisting, getProp, setExistingKvs_self]

theorem set_lGet_self : ∀ (xs : List JVal) (i : Nat), i < xs.length →
    xs.set i (lGet xs i) = xs := by
  intro xs
  induction xs with
  | nil => intro i h; simp at h
  | cons x rest ih =>
    intro i h
    cases i with
    | zero => rfl
    | succ j =>
      have hj : j < rest.length := by simpa using h
      show x :: rest.set j (lGet rest j) = x :: rest
      rw [ih j hj]

theorem jsIndexSet_self (t : JVal) (i : Nat) :
    jsIndexSet t i (jsIndex t i) = t := by
  cases t with
  | vArr xs =>
    show vArr (if i < xs.length then xs.set i (lGet xs i) else xs) = vArr xs
    by_cases h : i < xs.length
    · rw [if_pos h, set_lGet_self xs i h]
    · rw [if_neg h]
  | vObj kvs =>
    show vObj (setExistingKvs kvs (natKey i) (lookupKvs kvs (natKey i)))
      = vObj kvs
    rw [setExistingKvs_self]
  | vStr s => rfl
  | vUndef => rfl
  | vNull => rfl
  | vBool b => rfl
  | vNum n => rfl

theorem arrStep_tgt {dm : JVal → JVal → Bool → Option String → JVal × JVal × JVal}
    {t : JVal} {c : Bool} {pk : Option String} {i : Nat} {dst : List JVal}
    {el : JVal} (hdm : ∀ a b c' k', (dm a b c' k').2.1 = a) :
    (arrStep dm t c pk i dst t el).2.1 = t := by
  unfold arrStep
  split_ifs <;> simp [hdm, jsIndexSet_self]

theorem arrLoop_tgt {dm : JVal → JVal → Bool → Option String → JVal × JVal × JVal}
    {t : JVal} {c : Bool} {pk : Option String}
    (hdm : ∀ a b c' k', (dm a b c' k').2.1 = a) :
    ∀ (els : List JVal) (i : Nat) (dst : List JVal),
      (arrLoop dm t c pk i dst t els).2.1 = t := by
  intro els
  induction els with
  | nil => intro i dst; rfl
  | cons el rest ih =>
    intro i dst
    unfold arrLoop
    dsimp only
    rw [arrStep_tgt hdm]
    exact ih (i + 1) _

theorem objStep_tgt {dm : JVal → JVal → Bool → Option String → JVal × JVal × JVal}
    {uml : List String} {target : JVal} {c : Bool}
    {dst : List (String × JVal)} {k : String} {v0 : JVal}
    (hdm : ∀ a b c' k', (dm a b c' k').2.1 = a) :
    (objStep dm uml target c dst target k v0).2.1 = target := by
  unfold objStep
  dsimp only
  split_ifs <;> simp [hdm, objSetExisting_self]

theorem objLoop_tgt {dm : JVal → JVal → Bool → Option String → JVal × JVal × JVal}
    {uml : List String} {target : JVal} {c : Bool}
    (hdm : ∀ a b c' k', (dm a b c' k').2.1 = a) :
    ∀ (kvs : List (String × JVal)) (dst : List (String × JVal)),
      (objLoop dm uml target c dst target kvs).2.1 = target := by
  intro kvs
  induction kvs with
  | nil => intro dst; rfl
  | cons kv rest ih =>
    intro dst
    cases kv with
    | mk k v0 =>
      unfold objLoop
      dsimp only
      rw [objStep_tgt hdm]
      exact ih _

theorem arrStep_src {dm : JVal → JVal → Bool → Option String → JVal × JVal × JVal}
    {uml : List String} {pf : Nat} {t : JVal} {c : Bool} {pk : Option String}
    {i : Nat} {dst : List JVal} {tAcc el : JVal}
    (hdm : ∀ a b c' k', promoFree uml pf b = true → (dm a b c' k').2.2 = b)
    (hel : promoFree uml pf el = true) :
    (arrStep dm t c pk i dst tAcc el).2.2 = el := by
  unfold arrStep
  split_ifs <;> first | rfl | (dsimp only; rw [hdm (jsIndex t i) el c pk hel])

theorem arrLoop_src {dm : JVal → JVal → Bool → Option String → JVal × JVal × JVal}
    {uml : List String} {pf : Nat} {t : JVal} {c : Bool} {pk : Option String}
    (hdm : ∀ a b c' k', promoFree uml pf b = true → (dm a b c' k').2.2 = b) :
    ∀ (els : List JVal), (∀ el ∈ els, promoFree uml pf el = true) →
      ∀ (i : Nat) (dst : List JVal) (tAcc : JVal),
        (arrLoop dm t c pk i dst tAcc els).2.2 = els := by
  intro els
  induction els with
  | nil => intro _ i dst tAcc; rfl
  | cons el rest ih =>
    intro hall i dst tAcc
    unfold arrLoop
    dsimp only
    rw [arrStep_src hdm (hall el (List.mem_cons_self el rest)),
      ih (fun e he => hall e (List.mem_cons_of_mem el he)) (i + 1) _ _]

theorem objStep_src {dm : JVal → JVal → Bool → Option String → JVal × JVal × JVal}
    {uml : List String} {pf : Nat} {target : JVal} {c : Bool}
    {dst : List (String × JVal)} {tAcc : JVal} {k : String} {v0 : JVal}
    (hdm : ∀ a b c' k', promoFree uml pf b = true → (dm a b c' k').2.2 = b)
    (hk : ¬ k ∈ uml ∨ isArrB v0 = true) (hv : promoFree uml pf v0 = true) :
    (objStep dm uml target c dst tAcc k v0).2.2 = v0 := by
  unfold objStep
  dsimp only
  have hpromo : (if k ∈ uml ∧ isArrB v0 = false then vArr [v0] else v0) = v0 := by
    rcases hk with h | h
    · exact if_neg (fun hc => h hc.1)
    · refine if_neg (fun hc => ?_)
      rw [h] at hc
      exact Bool.noConfusion hc.2
  rw [hpromo]
  split_ifs <;>
    first
      | rfl
      | (dsimp only; rw [hdm (getProp target k) v0 (decide (k ∈ uml)) (some k) hv])
      | (dsimp only; rw [hdm (vObj []) v0 c (some k) hv])
      | (dsimp only; rw [hdm (getProp target k) v0 c (some k) hv])

theorem objLoop_src {dm : JVal → JVal → Bool → Option String → JVal × JVal × JVal}
    {uml : List String} {pf : Nat} {target : JVal} {c : Bool}
    (hdm : ∀ a b c' k', promoFree uml pf b = true → (dm a b c' k').2.2 = b) :
    ∀ (kvs : List (String × JVal)),
      (∀ kv ∈ kvs,
        (¬ kv.1 ∈ uml ∨ isArrB kv.2 = true) ∧ promoFree uml pf kv.2 = true) →
      ∀ (dst : List (String × JVal)) (tAcc : JVal),
        (objLoop dm uml target c dst tAcc kvs).2.2 = kvs := by
  intro kvs
  induction kvs with
  | nil => intro _ dst tAcc; rfl
  | cons kv rest ih =>
    intro hall dst tAcc
    cases kv with
    | mk k v0 =>
      unfold objLoop
      dsimp only
      rw [objStep_src hdm (hall (k, v0) (List.mem_cons_self _ _)).1
          (hall (k, v0) (List.mem_cons_self _ _)).2,
        ih (fun e he => hall e (List.mem_cons_of_mem _ he)) _ _]

theorem arrStep_srcFree {dm : JVal → JVal → Bool → Option String → JVal × JVal × JVal}
    {t : JVal} {c : Bool} {pk : Option String} {i : Nat} {dst : List JVal}
    {tAcc el : JVal} (hdm : ∀ a b c' k', (dm a b c' k').2.2 = b) :
    (arrStep dm t c pk i dst tAcc el).2.2 = el := by
  unfold arrStep
  split_ifs <;> first | rfl | (dsimp only; rw [hdm (jsIndex t i) el c pk])

theorem arrLoop_srcFree {dm : JVal → JVal → Bool → Option String → JVal × JVal × JVal}
    {t : JVal} {c : Bool} {pk : Option String}
    (hdm : ∀ a b c' k', (dm a b c' k').2.2 = b) :
    ∀ (els : List JVal) (i : Nat) (dst : List JVal) (tAcc : JVal),
      (arrLoop dm t c pk i dst tAcc els).2.2 = els := by
  intro els
  induction els with
  | nil => intro i dst tAcc; rfl
  | cons el rest ih =>
    intro i dst tAcc
    unfold arrLoop
    dsimp only
    rw [arrStep_srcFree hdm, ih (i + 1) _ _]

theorem objStep_srcFree {dm : JVal → JVal → Bool → Option String → JVal × JVal × JVal}
    {target : JVal} {c : Bool} {dst : List (String × JVal)} {tAcc : JVal}
    {k : String} {v0 : JVal} (hdm : ∀ a b c' k', (dm a b c' k').2.2 = b) :
    (objStep dm [] target c dst tAcc k v0).2.2 = v0 := by
  unfold objStep
  dsimp only
  rw [show (if k ∈ ([] : List String) ∧ isArrB v0 = false then vArr [v0] else v0)
      = v0 from if_neg (fun hc => List.not_mem_nil k hc.1)]
  split_ifs <;>
    first
      | rfl
      | (dsimp only; rw [hdm (getProp target k) v0 (decide (k ∈ ([] : List String))) (some k)])
      | (dsimp only; rw [hdm (vObj []) v0 c (some k)])
      | (dsimp only; rw [hdm (getProp target k) v0 c (some k)])

theorem objLoop_srcFree {dm : JVal → JVal → Bool → Option String → JVal × JVal × JVal}
    {target : JVal} {c : Bool} (hdm : ∀ a b c' k', (dm a b c' k').2.2 = b) :
    ∀ (kvs : List (String × JVal)) (dst : List (String × JVal)) (tAcc : JVal),
      (objLoop dm [] target c dst tAcc kvs).2.2 = kvs := by
  intro kvs
  induction kvs with
  | nil => intro dst tAcc; rfl
  | cons kv rest ih =>
    intro dst tAcc
    cases kv with
    | mk k v0 =>
      unfold objLoop
      dsimp only
      rw [objStep_srcFree hdm, ih _ _]

/-- C2 — the frame properties that actually hold: `_deepMerge` never mutates
the `target` operand (the source contains no assignment into it; the target
channel of the embedding is the identity for every input); the `src` operand
is unchanged whenever no key anywhere inside it is named in the
upgrade-merge list with a non-sequence value, and in particular always when
the upgrade-merge list is empty.  The line-186 promotion is the sole operand
mutation. -/
theorem deepMerge_operand_mutation :
    (∀ (uml : List String) (fuel : Nat) (target src : JVal) (c : Bool)
        (pk : Option String),
        (deepMerge uml fuel target src c pk).2.1 = target)
    ∧ (∀ (uml : List String) (pf : Nat) (src : JVal),
        promoFree uml pf src = true →
        ∀ (fuel : Nat) (target : JVal) (c : Bool) (pk : Option String),
          (deepMerge uml fuel target src c pk).2.2 = src)
    ∧ (∀ (fuel : Nat) (target src : JVal) (c : Bool) (pk : Option String),
        (deepMerge [] fuel target src c pk).2.2 = src) := by
  have htgt : ∀ (uml : List String) (fuel : Nat) (target src : JVal) (c : Bool)
      (pk : Option String), (deepMerge uml fuel target src c pk).2.1 = target := by
    intro uml fuel
    induction fuel with
    | zero => intro target src c pk; rfl
    | succ f ih =>
      intro target src c pk
      show (deepMergeBody (deepMerge uml f) uml target src c pk).2.1 = target
      unfold deepMergeBody
      dsimp only
      split
      · by_cases ht : truthy target = true
        · simp only [ht, if_true]
          exact arrLoop_tgt (fun a b c' k' => ih a b c' k') _ 0 _
        · simp [ht]
      · exact objLoop_tgt (fun a b c' k' => ih a b c' k') _ _
  refine ⟨htgt, ?_, ?_⟩
  · intro uml pf
    induction pf with
    | zero => intro src h; simp [promoFree] at h
    | succ pf ih =>
      intro src h fuel target c pk
      cases fuel with
      | zero => rfl
      | succ f =>
        have hdm : ∀ a b c' k', promoFree uml pf b = true →
            (deepMerge uml f a b c' k').2.2 = b :=
          fun a b c' k' hb => ih b hb f a c' k'
        show (deepMergeBody (deepMerge uml f) uml target src c pk).2.2 = src
        unfold deepMergeBody
        dsimp only
        split
        · cases src with
          | vArr xs =>
            dsimp only
            exact congrArg vArr (arrLoop_src hdm xs (promoFree_arr_elems h) 0 _ _)
          | vObj kvs => rfl
          | vUndef => rfl
          | vNull => rfl
          | vBool b => rfl
          | vNum n => rfl
          | vStr s => rfl
        · cases src with
          | vObj kvs =>
            dsimp only
            exact congrArg vObj
              (objLoop_src hdm kvs (promoFree_obj_entries h) _ _)
          | vArr xs => rfl
          | vUndef => rfl
          | vNull => rfl
          | vBool b => rfl
          | vNum n => rfl
          | vStr s => rfl
  · intro fuel
    induction fuel with
    | zero => intro target src c pk; rfl
    | succ f ih =>
      intro target src c pk
      have hdm : ∀ a b c' k', promoFree [] 1 b = true →
          (deepMerge [] f a b c' k').2.2 = b := fun a b c' k' _ => ih a b c' k'
      show (deepMergeBody (deepMerge [] f) [] target src c pk).2.2 = src
      unfold deepMergeBody
      dsimp only
      split
      · cases src with
        | vArr xs =>
          dsimp only
          refine congrArg vArr (arrLoop_srcFree (fun a b c' k' => ih a b c' k') xs 0 _ _)
        | vObj kvs => rfl
        | vUndef => rfl
        | vNull => rfl
        | vBool b => rfl
        | vNum n => rfl
        | vStr s => rfl
      · cases src with
        | vObj kvs =>
          dsimp only
          exact congrArg vObj (objLoop_srcFree (fun a b c' k' => ih a b c' k') kvs _ _)
        | vArr xs => rfl
        | vUndef => rfl
        | vNull => rfl
        | vBool b => rfl
        | vNum n => rfl
        | vStr s => rfl

/-- C2 — counterexample to the claim as stated: merging
`src = \x7btags: 'a'\x7d` under `upgradeMergeList = ['tags']` rewrites `src`
in place to `\x7btags: ['a']\x7d` (line 186), so the `src` operand is not
unchanged when an upgrade-merge key holds a non-sequence value. -/
theorem deepMerge_mutates_src_cex :
    (deepMerge ["tags"] 2 (vObj []) (vObj [("tags", vStr "a")]) false none).2.2
      = vObj [("tags", vArr [vStr "a"])]
    ∧ ¬ ((deepMerge ["tags"] 2 (vObj []) (vObj [("tags", vStr "a")]) false none).2.2
      = vObj [("tags", vStr "a")]) := by
  refine ⟨rfl, ?_⟩
  intro h
  have hv : (deepMerge ["tags"] 2 (vObj []) (vObj [("tags", vStr "a")]) false none).2.2
      = vObj [("tags", vArr [vStr "a"])] := rfl
  rw [hv] at h
  injection h with h1
  injection h1 with h2 h3
  injection h2 with h4 h5
  injection h5

/-- C2 — witness: with a non-empty upgrade-merge list whose key holds a
sequence already, `src` is unchanged, and `target` is returned untouched. -/
theorem deepMerge_operand_mutation_w :
    promoFree ["tags"] 3 (vObj [("tags", vArr [vStr "a"]), ("other", vNum 1)]) = true
    ∧ (deepMerge ["tags"] 2 (vObj [("z", vNum 9)])
        (vObj [("tags", vArr [vStr "a"]), ("other", vNum 1)]) false none).2.2
      = vObj [("tags", vArr [vStr "a"]), ("other", vNum 1)]
    ∧ (deepMerge ["tags"] 2 (vObj [("z", vNum 9)])
        (vObj [("tags", vArr [vStr "a"]), ("other", vNum 1)]) false none).2.1
      = vObj [("z", vNum 9)] :=
  ⟨by decide,
    deepMerge_operand_mutation.2.1 ["tags"] 3
      (vObj [("tags", vArr [vStr "a"]), ("other", vNum 1)]) (by decide) 2
      (vObj [("z", vNum 9)]) false none,
    deepMerge_operand_mutation.1 ["tags"] 2 (vObj [("z", vNum 9)])
      (vObj [("tags", vArr [vStr "a"]), ("other", vNum 1)]) false none⟩

end ConfigResolver

namespace ConfigResolver

open JVal

/-! ### C8 — diagnostic augmentation of chain-walk errors -/

theorem mem_joinNl_occurs (l : List String) (s : String) (hs : s ∈ l) :
    s.data <:+: (joinNl l).data := by
  induction l with
  | nil => simp at hs
  | cons x t ih =>
    cases t with
    | nil =>
      have hx : s = x := by simpa using hs
      subst hx
      exact ⟨[], [], by simp [joinNl]⟩
    | cons y t2 =>
      rcases List.mem_cons.mp hs with h1 | h2
      · subst h1
        exact ⟨[], '\n' :: (joinNl (y :: t2)).data,
          by simp [joinNl, String.data_append]⟩
      · obtain ⟨u, v, h⟩ := ih h2
        exact ⟨(x ++ "\n").data ++ u, v,
          by simp [joinNl, String.data_append, ← h, List.append_assoc]⟩

/-- C8 — whenever the chain walk of `_applyExtends` fails, `_resolveExtends`
(lines 393-403) re-raises the error with the loaded-chain record appended to
the message, so the message contains every reference identifier recorded in
the chain — in particular every previously successfully-resolved one, in
load order (the chain lists them in the order they were pushed). -/
theorem resolveExtends_error_augmented (L : String → Except String JVal)
    (V : JVal → Except String Unit) (uml : List String) (fuel : Nat)
    (cwd e : String) (lf : List String) (kvs : List (String × JVal))
    (hx : truthy (getProp (vObj kvs) "extends") = true)
    (herr : applyExtends L V uml fuel (vObj kvs) cwd (some cwd) []
      = .error (e, lf)) :
    resolveExtends L V uml fuel (vObj kvs) cwd
        = .error (e ++ "\nReferenced from: \n" ++ joinNl lf)
    ∧ ∀ r ∈ lf, strContains (e ++ "\nReferenced from: \n" ++ joinNl lf) r := by
  constructor
  · unfold resolveExtends
    dsimp only [getPropE]
    rw [hx, if_pos rfl, herr]
  · intro r hr
    obtain ⟨u, v, h⟩ := mem_joinNl_occurs lf r hr
    exact ⟨(e ++ "\nReferenced from: \n").data ++ u, v,
      by simp [String.data_append, ← h, List.append_assoc]⟩

/-- Loader for the diagnostic scenario: only module `ok1` exists. -/
def ldOk1 : String → Except String JVal := fun s =>
  if s = "ok1" then .ok (vObj [("x", vNum 1)])
  else .error ("Cannot find module '" ++ s ++ "'")

/-- Config extending `[bad, ok1]`: `ok1` loads first (rightmost first), then
`bad` fails. -/
def cfgBadOk : JVal := vObj [("extends", vArr [vStr "bad", vStr "ok1"])]

/-- C8 — witness: a chain whose second load fails produces an error whose
message carries the previously loaded `ok1` and the failing `bad`, in load
order. -/
theorem resolveExtends_error_augmented_w :
    truthy (getProp cfgBadOk "extends") = true
    ∧ applyExtends ldOk1 noopV [] 10 cfgBadOk "/cwd" (some "/cwd") []
        = .error ("Cannot find module 'bad'", ["ok1", "bad"])
    ∧ resolveExtends ldOk1 noopV [] 10 cfgBadOk "/cwd"
        = .error "Cannot find module 'bad'\nReferenced from: \nok1\nbad"
    ∧ strContains "Cannot find module 'bad'\nReferenced from: \nok1\nbad" "ok1" := by
  refine ⟨rfl, rfl, ?_, ?_⟩
  · exact (resolveExtends_error_augmented ldOk1 noopV [] 10 "/cwd"
      "Cannot find module 'bad'" ["ok1", "bad"]
      [("extends", vArr [vStr "bad", vStr "ok1"])] rfl rfl).1
  · exact (resolveExtends_error_augmented ldOk1 noopV [] 10 "/cwd"
      "Cannot find module 'bad'" ["ok1", "bad"]
      [("extends", vArr [vStr "bad", vStr "ok1"])] rfl rfl).2 "ok1" (by simp)

end ConfigResolver

namespace ConfigResolver

open JVal

/-! ### C4 — cycle guard and the loaded-chain invariant -/

theorem goRefs_chain_nodup (loadFn : String → List String → ExtRes)
    (mergeFn : JVal → JVal → JVal) (fp : String) (rt : Option String)
    (hload : ∀ p l, l.Nodup → (chainOf (loadFn p l)).Nodup) :
    ∀ (refs : List JVal) (acc : JVal) (loaded : List String),
      loaded.Nodup → (chainOf (goRefs loadFn mergeFn fp rt refs acc loaded)).Nodup := by
  intro refs
  induction refs with
  | nil => intro acc loaded h; exact h
  | cons ref rest ih =>
    intro acc loaded h
    cases ref
    case vStr s =>
      unfold goRefs
      dsimp only
      by_cases hmem : resolveRefPath s fp rt ∈ loaded
      · rw [if_pos hmem]; exact ih acc loaded h
      · rw [if_neg hmem]
        have hl' : (loaded ++ [resolveRefPath s fp rt]).Nodup := by
          simp [List.nodup_append, h, hmem]
        cases hfn : loadFn (resolveRefPath s fp rt)
            (loaded ++ [resolveRefPath s fp rt]) with
        | error e =>
          have hc := hload (resolveRefPath s fp rt)
            (loaded ++ [resolveRefPath s fp rt]) hl'
          rw [hfn] at hc
          exact hc
        | ok pr =>
          have hc := hload (resolveRefPath s fp rt)
            (loaded ++ [resolveRefPath s fp rt]) hl'
          rw [hfn] at hc
          exact ih (mergeFn pr.1 acc) pr.2 hc
    all_goals exact h

theorem loadWith_chain_nodup
    (rec : JVal → String → Option String → List String → ExtRes)
    (L : String → Except String JVal) (V : JVal → Except String Unit)
    (hrec : ∀ cfg fp rt l, l.Nodup → (chainOf (rec cfg fp rt l)).Nodup) :
    ∀ (p : String) (rt : Option String) (l : List String),
      l.Nodup → (chainOf (loadWith rec L V p rt l)).Nodup := by
  intro p rt l h
  unfold loadWith
  dsimp only
  split_ifs <;>
    (split
     · exact h
     · split
       · exact h
       · split_ifs
         · exact hrec _ _ _ _ h
         · exact h)

theorem applyExtends_chain_nodup (L : String → Except String JVal)
    (V : JVal → Except String Unit) (uml : List String) :
    ∀ (fuel : Nat) (cfg : JVal) (fp : String) (rt : Option String)
      (loaded : List String), loaded.Nodup →
      (chainOf (applyExtends L V uml fuel cfg fp rt loaded)).Nodup := by
  intro fuel
  induction fuel with
  | zero => intro cfg fp rt loaded h; exact h
  | succ f ih =>
    intro cfg fp rt loaded h
    show (chainOf (goRefs
      (fun p l => loadWith (applyExtends L V uml f) L V p rt l)
      (fun t s => (deepMerge uml f t s false none).1)
      fp rt (extRefs cfg).reverse cfg loaded)).Nodup
    exact goRefs_chain_nodup _ _ fp rt
      (fun p l hl => loadWith_chain_nodup _ L V
        (fun cfg' fp' rt' l' hl' => ih cfg' fp' rt' l' hl') p rt l hl)
      (extRefs cfg).reverse cfg loaded h

/-- C4 — the cycle guard: a reference whose resolved identifier is already in
the loaded-chain record is skipped silently (line 62) — the walk continues
with the same accumulator and the same chain, raising no error — and the
loaded-chain record stays duplicate-free through every step of a resolution
(each identifier is pushed only after a membership check, and `resolve`
starts from the empty chain). -/
theorem cycle_guard_skip_and_nodup_chain :
    (∀ (loadFn : String → List String → ExtRes)
        (mergeFn : JVal → JVal → JVal) (fp : String) (rt : Option String)
        (s : String) (rest : List JVal) (acc : JVal) (loaded : List String),
        resolveRefPath s fp rt ∈ loaded →
        goRefs loadFn mergeFn fp rt (vStr s :: rest) acc loaded
          = goRefs loadFn mergeFn fp rt rest acc loaded)
    ∧ (∀ (L : String → Except String JVal) (V : JVal → Except String Unit)
        (uml : List String) (fuel : Nat) (cfg : JVal) (fp : String)
        (rt : Option String) (loaded : List String), loaded.Nodup →
        (chainOf (applyExtends L V uml fuel cfg fp rt loaded)).Nodup) := by
  constructor
  · intro loadFn mergeFn fp rt s rest acc loaded hmem
    conv_lhs => unfold goRefs
    dsimp only
    rw [if_pos hmem]
  · exact fun L V uml fuel cfg fp rt loaded h =>
      applyExtends_chain_nodup L V uml fuel cfg fp rt loaded h

/-- Loader for the cyclic scenario: A extends B, B extends A. -/
def ldCyc : String → Except String JVal := fun s =>
  if s = "A" then .ok (vObj [("extends", vStr "B"), ("a", vNum 1)])
  else if s = "B" then .ok (vObj [("extends", vStr "A"), ("b", vNum 2)])
  else .error ("Cannot find module '" ++ s ++ "'")

/-- C4 — witness: the guard skips a reference already in the chain, and the
cyclic A-B-A walk terminates with the duplicate-free chain. -/
theorem cycle_guard_skip_and_nodup_chain_w :
    (resolveRefPath "A" "/cwd" (some "/cwd") ∈ ["A"]
      ∧ goRefs (fun _ l => .ok (vObj [], l)) (fun t _ => t) "/cwd"
          (some "/cwd") [vStr "A"] (vObj []) ["A"]
        = goRefs (fun _ l => .ok (vObj [], l)) (fun t _ => t) "/cwd"
          (some "/cwd") [] (vObj []) ["A"])
    ∧ (([] : List String).Nodup
      ∧ (chainOf (applyExtends ldCyc noopV [] 10
          (vObj [("extends", vStr "A")]) "/cwd" (some "/cwd") [])).Nodup) := by
  refine ⟨⟨by decide, ?_⟩, ⟨List.nodup_nil, ?_⟩⟩
  · exact cycle_guard_skip_and_nodup_chain.1 _ _ "/cwd" (some "/cwd") "A" []
      (vObj []) ["A"] (by decide)
  · exact cycle_guard_skip_and_nodup_chain.2 ldCyc noopV [] 10
      (vObj [("extends", vStr "A")]) "/cwd" (some "/cwd") [] List.nodup_nil

end ConfigResolver

namespace ConfigResolver

open JVal

/-! ### C7 — upgrade-merge keys: promotion and set-union semantics -/

/-- Primitive (non-object, non-null, non-undefined) values. -/
def isScalarB : JVal → Bool
  | vBool _ => true
  | vNum _ => true
  | vStr _ => true
  | _ => false

/-- The sequence an upgrade-merge override value is promoted to (line 186):
already a sequence, or wrapped as a single element. -/
def promoteUM : JVal → List JVal
  | vArr xs => xs
  | s => [s]

theorem scalar_not_undef {v : JVal} (h : isScalarB v = true) :
    isUndefB v = false := by
  cases v <;> simp_all [isScalarB, isUndefB]

theorem scalar_not_typeofObj {v : JVal} (h : isScalarB v = true) :
    typeofObjB v = false := by
  cases v <;> simp_all [isScalarB, typeofObjB]

theorem jsStrictEq_self {v : JVal} (h : isScalarB v = true) :
    jsStrictEq v v = true := by
  cases v <;> simp_all [isScalarB, jsStrictEq, isRefTypeB, scalarEqB]

theorem not_mem_of_jsIndexOf_eq_false {l : List JVal} {v : JVal}
    (h : jsIndexOf l v = false) (hv : isScalarB v = true) : v ∉ l := by
  intro hm
  have ht : jsIndexOf l v = true :=
    List.any_eq_true.mpr ⟨v, hm, jsStrictEq_self hv⟩
  rw [h] at ht
  exact Bool.noConfusion ht

theorem arrStep_combine_mem
    {dm : JVal → JVal → Bool → Option String → JVal × JVal × JVal}
    {t : JVal} {pk : Option String} {i : Nat} {dst : List JVal} {tAcc : JVal}
    {el : JVal} (hel : isScalarB el = true) (hidx : lGet dst i = el)
    (hmem : jsIndexOf dst el = true) :
    arrStep dm t true pk i dst tAcc el = (dst, tAcc, el) := by
  unfold arrStep
  simp [hidx, scalar_not_undef hel, scalar_not_typeofObj hel, hmem]

theorem arrLoop_combine_self
    (dm : JVal → JVal → Bool → Option String → JVal × JVal × JVal)
    (t : JVal) (pk : Option String) (ss : List JVal)
    (hsc : ∀ v ∈ ss, isScalarB v = true) :
    ∀ (rest : List JVal) (i : Nat) (tAcc : JVal), ss.drop i = rest →
      arrLoop dm t true pk i ss tAcc rest = (ss, tAcc, rest) := by
  intro rest
  induction rest with
  | nil => intro i tAcc _; rfl
  | cons el rest2 ih =>
    intro i tAcc h
    have hmemel : el ∈ ss :=
      List.drop_subset i ss (by rw [h]; exact List.mem_cons_self el rest2)
    have hel : isScalarB el = true := hsc el hmemel
    have hget : ss[i]? = some el := by
      rw [← List.head?_drop, h]
      rfl
    have hGet : lGet ss i = el := by
      unfold lGet
      rw [List.getD_eq_getElem?_getD, hget]
      rfl
    have hmem : jsIndexOf ss el = true :=
      List.any_eq_true.mpr ⟨el, hmemel, jsStrictEq_self hel⟩
    have hdrop : ss.drop (i + 1) = rest2 := by
      have h1 : ss.drop (i + 1) = (ss.drop i).drop 1 := by
        rw [List.drop_drop]
      rw [h1, h]
      rfl
    unfold arrLoop
    dsimp only
    rw [arrStep_combine_mem hel hGet hmem]
    dsimp only
    rw [ih (i + 1) tAcc hdrop]

end ConfigResolver

namespace ConfigResolver

open JVal

theorem deepMergeBody_combine_nodup
    (dm : JVal → JVal → Bool → Option String → JVal × JVal × JVal)
    (uml : List String) (k : String) (hk : ¬ (k = "plugins"))
    (ts ss : List JVal)
    (hts : ∀ v ∈ ts, isScalarB v = true)
    (hss : ∀ v ∈ ss, isScalarB v = true) :
    (deepMergeBody dm uml (vArr ts) (vArr ss) true (some k)).1 = vArr ts
    ∨ (deepMergeBody dm uml (vArr ts) (vArr ss) true (some k)).1 = vArr ss
    ∨ ∃ s, (deepMergeBody dm uml (vArr ts) (vArr ss) true (some k)).1
        = vArr (ts ++ [s]) ∧ s ∉ ts := by
  have hred : (deepMergeBody dm uml (vArr ts) (vArr ss) true (some k)).1
      = vArr (arrLoop dm (vArr ts) true (some k) 0
          (if ss.length > 1 then ss else ts) (vArr ts) ss).1 := by
    unfold deepMergeBody
    simp only [isArrB, truthy, Bool.true_or, if_true]
    rw [if_neg (by simp [hk])]
  rw [hred]
  by_cases hlen : ss.length > 1
  · rw [if_pos hlen,
      arrLoop_combine_self dm (vArr ts) (some k) ss hss ss 0 (vArr ts)
        (List.drop_zero ss)]
    exact Or.inr (Or.inl rfl)
  · rw [if_neg hlen]
    cases ss with
    | nil => exact Or.inl rfl
    | cons s ss2 =>
      cases ss2 with
      | cons s2 ss3 => simp at hlen
      | nil =>
        have hs : isScalarB s = true := hss s (List.mem_cons_self s [])
        cases ts with
        | nil => exact Or.inr (Or.inl rfl)
        | cons t0 ts2 =>
          have ht0 : isScalarB t0 = true := hts t0 (List.mem_cons_self t0 ts2)
          cases hIdx : jsIndexOf (t0 :: ts2) s with
          | true =>
            have harr : arrLoop dm (vArr (t0 :: ts2)) true (some k) 0
                (t0 :: ts2) (vArr (t0 :: ts2)) [s]
                = (t0 :: ts2, vArr (t0 :: ts2), [s]) := by
              unfold arrLoop
              dsimp only
              unfold arrStep
              rw [show lGet (t0 :: ts2) 0 = t0 from rfl]
              rw [if_neg (by simp [scalar_not_undef ht0])]
              rw [if_neg (by simp [scalar_not_typeofObj hs])]
              rw [if_pos rfl, if_pos hIdx]
              rfl
            rw [harr]
            exact Or.inl rfl
          | false =>
            have harr : arrLoop dm (vArr (t0 :: ts2)) true (some k) 0
                (t0 :: ts2) (vArr (t0 :: ts2)) [s]
                = ((t0 :: ts2) ++ [s], vArr (t0 :: ts2), [s]) := by
              unfold arrLoop
              dsimp only
              unfold arrStep
              rw [show lGet (t0 :: ts2) 0 = t0 from rfl]
              rw [if_neg (by simp [scalar_not_undef ht0])]
              rw [if_neg (by simp [scalar_not_typeofObj hs])]
              rw [if_pos rfl, if_neg (by simp [hIdx])]
              rfl
            rw [harr]
            exact Or.inr (Or.inr ⟨s, rfl,
              not_mem_of_jsIndexOf_eq_false hIdx hs⟩)

theorem lookupKvs_setKvs_self (l : List (String × JVal)) (k : String) (v : JVal) :
    lookupKvs (setKvs l k v) k = v := by
  induction l with
  | nil => simp [setKvs, lookupKvs]
  | cons kv rest ih =>
    cases kv with
    | mk k' v' =>
      by_cases h : k' = k
      · subst h
        simp [setKvs, lookupKvs]
      · simp [setKvs, lookupKvs, h, ih]

theorem lookupKvs_setKvs_ne (l : List (String × JVal)) {k' k : String}
    (v : JVal) (h : ¬ k' = k) :
    lookupKvs (setKvs l k' v) k = lookupKvs l k := by
  induction l with
  | nil => simp [setKvs, lookupKvs, h]
  | cons kv rest ih =>
    cases kv with
    | mk k2 v2 =>
      by_cases h2 : k2 = k'
      · subst h2
        simp [setKvs, lookupKvs, h]
      · by_cases h3 : k2 = k
        · simp [setKvs, lookupKvs, h2, h3, Ne.symm h]
        · simp [setKvs, lookupKvs, h2, h3, ih]

/-- The value a mapping-merge iteration assigns for key `k` (it depends on
the operands but not on the accumulated `dst` or target state). -/
def objStepValue (dm : JVal → JVal → Bool → Option String → JVal × JVal × JVal)
    (uml : List String) (target : JVal) (combine : Bool)
    (k : String) (v0 : JVal) : JVal :=
  let v := if k ∈ uml ∧ isArrB v0 = false then vArr [v0] else v0
  let tv := getProp target k
  if isArrB v || isArrB tv then (dm tv v (decide (k ∈ uml)) (some k)).1
  else if !(jsTypeof v = "object") then v
  else if isNullB v then v
  else (dm (if truthy tv then tv else vObj []) v combine (some k)).1

theorem objStep_fst (dm : JVal → JVal → Bool → Option String → JVal × JVal × JVal)
    (uml : List String) (target : JVal) (c : Bool)
    (dst : List (String × JVal)) (tAcc : JVal) (k : String) (v0 : JVal) :
    (objStep dm uml target c dst tAcc k v0).1
      = setKvs dst k (objStepValue dm uml target c k v0) := by
  unfold objStep objStepValue
  dsimp only
  split_ifs <;> rfl

theorem objLoop_lookup_not_mem
    {dm : JVal → JVal → Bool → Option String → JVal × JVal × JVal}
    {uml : List String} {target : JVal} {c : Bool} {k : String} :
    ∀ (kvs : List (String × JVal)), (∀ kv ∈ kvs, ¬ kv.1 = k) →
      ∀ (dst : List (String × JVal)) (tAcc : JVal),
        lookupKvs (objLoop dm uml target c dst tAcc kvs).1 k
          = lookupKvs dst k := by
  intro kvs
  induction kvs with
  | nil => intro _ dst tAcc; rfl
  | cons kv rest ih =>
    intro hall dst tAcc
    cases kv with
    | mk k1 v1 =>
      unfold objLoop
      dsimp only
      rw [ih (fun e he => hall e (List.mem_cons_of_mem _ he)) _ _, objStep_fst,
        lookupKvs_setKvs_ne _ _ (hall (k1, v1) (List.mem_cons_self _ _))]

theorem objLoop_lookup_mem
    {dm : JVal → JVal → Bool → Option String → JVal × JVal × JVal}
    {uml : List String} {target : JVal} {c : Bool} {k : String} (v0 : JVal) :
    ∀ (pre post : List (String × JVal)), (∀ kv ∈ pre, ¬ kv.1 = k) →
      (∀ kv ∈ post, ¬ kv.1 = k) →
      ∀ (dst : List (String × JVal)) (tAcc : JVal),
        lookupKvs (objLoop dm uml target c dst tAcc
            (pre ++ (k, v0) :: post)).1 k
          = objStepValue dm uml target c k v0 := by
  intro pre
  induction pre with
  | nil =>
    intro post _ hpost dst tAcc
    show lookupKvs (objLoop dm uml target c dst tAcc ((k, v0) :: post)).1 k = _
    unfold objLoop
    dsimp only
    rw [objLoop_lookup_not_mem post hpost _ _, objStep_fst,
      lookupKvs_setKvs_self]
  | cons p pre2 ih =>
    intro post hpre hpost dst tAcc
    cases p with
    | mk k1 v1 =>
      show lookupKvs (objLoop dm uml target c dst tAcc
          ((k1, v1) :: (pre2 ++ (k, v0) :: post))).1 k = _
      unfold objLoop
      dsimp only
      exact ih post (fun e he => hpre e (List.mem_cons_of_mem _ he)) hpost _ _

theorem deepMerge_fst_isArr (uml : List String) (fuel : Nat) (t : JVal)
    (ss : List JVal) (c : Bool) (pk : Option String) :
    isArrB (deepMerge uml (fuel + 1) t (vArr ss) c pk).1 = true := by
  show isArrB (deepMergeBody (deepMerge uml fuel) uml t (vArr ss) c pk).1 = true
  unfold deepMergeBody
  rw [if_pos (by simp [isArrB])]
  rfl

theorem objStepValue_upgrade {uml : List String} {fuel : Nat} {target : JVal}
    {c : Bool} {k : String} {v0 : JVal} (hk : k ∈ uml) :
    objStepValue (deepMerge uml fuel) uml target c k v0
      = (deepMerge uml fuel (getProp target k) (vArr (promoteUM v0)) true
          (some k)).1 := by
  unfold objStepValue
  dsimp only
  rw [show (if k ∈ uml ∧ isArrB v0 = false then vArr [v0] else v0)
      = vArr (promoteUM v0) from by cases v0 <;> simp [promoteUM, isArrB, hk]]
  rw [if_pos (by simp [isArrB]), decide_eq_true hk]

/-- The own enumerable entries of a mapping (empty for anything else), as
used for the destination seed of the mapping branch of `_deepMerge`. -/
def objEntries : JVal → List (String × JVal)
  | vObj kvs => kvs
  | _ => []

theorem deepMerge_obj_lookup (uml : List String) (fuel : Nat) (target : JVal)
    (ht : isArrB target = false) (kvs : List (String × JVal)) (c : Bool)
    (pk : Option String) (k : String) :
    getProp (deepMerge uml (fuel + 1) target (vObj kvs) c pk).1 k
      = lookupKvs (objLoop (deepMerge uml fuel) uml target c
          (objEntries target) target kvs).1 k := by
  show getProp (deepMergeBody (deepMerge uml fuel) uml target (vObj kvs) c pk).1 k
    = _
  conv_lhs => unfold deepMergeBody
  rw [if_neg (by simp [show isArrB (vObj kvs) = false from rfl, ht])]
  rfl

end ConfigResolver

namespace ConfigResolver

open JVal

theorem deepMerge_succ (uml : List String) (fuel : Nat) (t s : JVal)
    (c : Bool) (pk : Option String) :
    deepMerge uml (fuel + 1) t s c pk
      = deepMergeBody (deepMerge uml fuel) uml t s c pk := rfl

/-- The merged result of `_deepMerge`, read back at one key. -/
def mergeLookup (uml : List String) (fuel : Nat) (target src : JVal)
    (c : Bool) (pk : Option String) (k : String) : JVal :=
  getProp (deepMerge uml fuel target src c pk).1 k

/-- C7: for a key named in the upgrade-merge list, (i) whenever the override
operand carries the key (and the base is a mapping), the merged value at
that key is an ordered sequence — a non-sequence override value having been
promoted to a single-element sequence (line 186); (ii) when additionally the
base holds a duplicate-free sequence of scalars at the key, the key is not
the special key "plugins", and the promoted override sequence is itself a
duplicate-free sequence of scalars, the merged value is the base sequence,
the override sequence, or the base sequence extended by one element not
already present — and in each case it contains no duplicate elements;
(iii) a key carried only by the base operand is copied to the result
unchanged.  (The unconditional spec sentence fails: an override sequence
longer than one element seeds the destination directly, so its internal
duplicates survive — see the counterexample.) -/
theorem upgrade_merge_key_semantics :
    (∀ (uml : List String) (fuel : Nat) (target : JVal) (c : Bool)
        (pk : Option String) (k : String) (v0 : JVal)
        (pre post : List (String × JVal)),
      k ∈ uml → isArrB target = false →
      (∀ kv ∈ pre, ¬ kv.1 = k) → (∀ kv ∈ post, ¬ kv.1 = k) →
      isArrB (mergeLookup uml (fuel + 2) target
          (vObj (pre ++ (k, v0) :: post)) c pk k) = true)
    ∧
    (∀ (uml : List String) (fuel : Nat) (tkvs : List (String × JVal))
        (c : Bool) (pk : Option String) (k : String) (v0 : JVal)
        (pre post : List (String × JVal)) (ts : List JVal),
      k ∈ uml → ¬ (k = "plugins") →
      (∀ kv ∈ pre, ¬ kv.1 = k) → (∀ kv ∈ post, ¬ kv.1 = k) →
      lookupKvs tkvs k = vArr ts →
      (∀ v ∈ ts, isScalarB v = true) → ts.Nodup →
      (∀ v ∈ promoteUM v0, isScalarB v = true) → (promoteUM v0).Nodup →
      (mergeLookup uml (fuel + 2) (vObj tkvs)
          (vObj (pre ++ (k, v0) :: post)) c pk k = vArr ts
        ∨ mergeLookup uml (fuel + 2) (vObj tkvs)
            (vObj (pre ++ (k, v0) :: post)) c pk k = vArr (promoteUM v0)
        ∨ ∃ s, mergeLookup uml (fuel + 2) (vObj tkvs)
            (vObj (pre ++ (k, v0) :: post)) c pk k = vArr (ts ++ [s])
            ∧ s ∉ ts)
      ∧ (asList (mergeLookup uml (fuel + 2) (vObj tkvs)
          (vObj (pre ++ (k, v0) :: post)) c pk k)).Nodup)
    ∧
    (∀ (uml : List String) (fuel : Nat) (tkvs kvs : List (String × JVal))
        (c : Bool) (pk : Option String) (k : String),
      (∀ kv ∈ kvs, ¬ kv.1 = k) →
      mergeLookup uml (fuel + 1) (vObj tkvs) (vObj kvs) c pk k
        = lookupKvs tkvs k) := by
  refine ⟨?_, ?_, ?_⟩
  · intro uml fuel target c pk k v0 pre post hk ht hpre hpost
    unfold mergeLookup
    rw [show fuel + 2 = fuel + 1 + 1 from rfl]
    rw [deepMerge_obj_lookup uml (fuel + 1) target ht _ c pk k]
    rw [objLoop_lookup_mem v0 pre post hpre hpost]
    rw [objStepValue_upgrade hk]
    exact deepMerge_fst_isArr uml fuel (getProp target k) (promoteUM v0)
      true (some k)
  · intro uml fuel tkvs c pk k v0 pre post ts hk hkp hpre hpost hlk hts hndts
      hss hnds
    unfold mergeLookup
    rw [show fuel + 2 = fuel + 1 + 1 from rfl]
    rw [deepMerge_obj_lookup uml (fuel + 1) (vObj tkvs) rfl _ c pk k]
    rw [objLoop_lookup_mem v0 pre post hpre hpost]
    rw [objStepValue_upgrade hk]
    rw [show getProp (vObj tkvs) k = vArr ts from hlk]
    rw [deepMerge_succ uml fuel (vArr ts) (vArr (promoteUM v0)) true (some k)]
    rcases deepMergeBody_combine_nodup (deepMerge uml fuel) uml k hkp ts
        (promoteUM v0) hts hss with h | h | ⟨s, hs, hns⟩
    · exact ⟨Or.inl h, by rw [h]; exact hndts⟩
    · exact ⟨Or.inr (Or.inl h), by rw [h]; exact hnds⟩
    · refine ⟨Or.inr (Or.inr ⟨s, hs, hns⟩), ?_⟩
      rw [hs]
      show (ts ++ [s]).Nodup
      rw [List.nodup_append]
      refine ⟨hndts, List.nodup_singleton s, ?_⟩
      intro a ha hmem
      have has : a = s := by simpa using hmem
      exact hns (has ▸ ha)
  · intro uml fuel tkvs kvs c pk k hall
    unfold mergeLookup
    rw [deepMerge_obj_lookup uml fuel (vObj tkvs) rfl kvs c pk k]
    rw [objLoop_lookup_not_mem kvs hall (objEntries (vObj tkvs)) (vObj tkvs)]
    rfl

/-- Counterexample to the unconditional sentence: an override sequence with
an internal scalar duplicate (here tags = [a, a], length above one) seeds
the destination array directly, so the merged upgrade-merge key keeps the
duplicate and the result is not duplicate-free. -/
theorem upgrade_merge_key_semantics_cex :
    mergeLookup ["tags"] 3 (vObj [("tags", vArr [vStr "a"])])
        (vObj [("tags", vArr [vStr "a", vStr "a"])]) false none "tags"
      = vArr [vStr "a", vStr "a"]
    ∧ ¬ (asList (mergeLookup ["tags"] 3 (vObj [("tags", vArr [vStr "a"])])
        (vObj [("tags", vArr [vStr "a", vStr "a"])]) false none
        "tags")).Nodup := by
  refine ⟨rfl, ?_⟩
  rw [show mergeLookup ["tags"] 3 (vObj [("tags", vArr [vStr "a"])])
      (vObj [("tags", vArr [vStr "a", vStr "a"])]) false none "tags"
      = vArr [vStr "a", vStr "a"] from rfl]
  simp [asList]

/-- Concrete run of each conjunct: a scalar override at the listed key in a
keyless base merges to a sequence; the spec example (base tags [a, b],
override scalar a) merges to a duplicate-free sequence; a key carried only
by the base survives unchanged. -/
theorem upgrade_merge_key_semantics_w :
    isArrB (mergeLookup ["tags"] 3 (vObj [])
        (vObj [("x", vNum 0), ("tags", vStr "a")]) false none "tags") = true
    ∧ ((mergeLookup ["tags"] 3 (vObj [("tags", vArr [vStr "a", vStr "b"])])
          (vObj [("tags", vStr "a")]) false none "tags"
          = vArr [vStr "a", vStr "b"]
        ∨ mergeLookup ["tags"] 3 (vObj [("tags", vArr [vStr "a", vStr "b"])])
            (vObj [("tags", vStr "a")]) false none "tags"
            = vArr (promoteUM (vStr "a"))
        ∨ ∃ s, mergeLookup ["tags"] 3
            (vObj [("tags", vArr [vStr "a", vStr "b"])])
            (vObj [("tags", vStr "a")]) false none "tags"
            = vArr ([vStr "a", vStr "b"] ++ [s])
            ∧ s ∉ [vStr "a", vStr "b"])
      ∧ (asList (mergeLookup ["tags"] 3
          (vObj [("tags", vArr [vStr "a", vStr "b"])])
          (vObj [("tags", vStr "a")]) false none "tags")).Nodup)
    ∧ mergeLookup ["tags"] 3 (vObj [("tags", vArr [vStr "a"])])
        (vObj [("other", vNum 2)]) false none "tags"
      = lookupKvs [("tags", vArr [vStr "a"])] "tags" := by
  refine ⟨?_, ?_, ?_⟩
  · exact upgrade_merge_key_semantics.1 ["tags"] 1 (vObj []) false none
      "tags" (vStr "a") [("x", vNum 0)] [] (by simp) rfl (by decide)
      (by decide)
  · exact upgrade_merge_key_semantics.2.1 ["tags"] 1
      [("tags", vArr [vStr "a", vStr "b"])] false none "tags" (vStr "a")
      [] [] [vStr "a", vStr "b"] (by simp) (by decide) (by decide)
      (by decide) rfl (by decide) (by simp) (by decide) (by simp [promoteUM])
  · exact upgrade_merge_key_semantics.2.2 ["tags"] 2
      [("tags", vArr [vStr "a"])] [("other", vNum 2)] false none "tags"
      (by decide)

end ConfigResolver
